import Mathlib

set_option autoImplicit false

/-!
Shallow embedding of `okama/common/make_asset_list.py` (class `ListMaker`).

Modelling conventions:
* timestamps (`pd.Timestamp`) are integer day counts (`Int`); only their
  order, equality and subtraction are used by the code;
* float64 values are exact rationals (`Rat`);
* a `pd.Series` is a named list of (timestamp, value) rows in index order;
* a `pd.DataFrame` is a column-name list plus rows of (timestamp, values);
* Python dicts are association lists with insertion order and
  replace-in-place update semantics;
* the external collaborators (the `Asset` and `Inflation` providers of the
  spec) are an explicit environment of functions.
-/

/-- a pandas Series: a named list of (timestamp, value) rows kept in index
order. -/
structure Series where
  name : String
  data : List (Int × Rat)
deriving DecidableEq

/-- a pandas DataFrame: column names plus rows of (timestamp, one value per
column). -/
structure Table where
  cols : List String
  rows : List (Int × List Rat)
deriving DecidableEq

/-- an asset handle as exposed by the external asset provider: symbol,
display name, currency, availability bounds and the return series. -/
structure AssetHandle where
  symbol : String
  name : String
  currency : String
  first_date : Int
  last_date : Int
  ror : Series
deriving DecidableEq

/-- an inflation handle as exposed by the external inflation provider. -/
structure InflationHandle where
  values_ts : Series
  first_date : Int
  last_date : Int
deriving DecidableEq

/-- the external collaborators: `asset s` models `Asset(symbol=s)` and
`infl key a b` models `Inflation(key, a, b)`. -/
structure Env where
  asset : String → AssetHandle
  infl : String → Int → Int → InflationHandle

/-- an entry of the constructor assets argument: either a raw symbol string
or a pre-resolved handle (the `hasattr` duck-typing of the source as a
tagged union, per the spec design notes). -/
inductive AssetRef where
  | symbol : String → AssetRef
  | handle : AssetHandle → AssetRef
deriving DecidableEq

/-- resolution of one list entry: a handle is used directly, a raw symbol
goes through the asset provider (`x if hasattr(x, ...) else Asset(x)`). -/
def resolveAsset (env : Env) : AssetRef → AssetHandle
  | .symbol s => env.asset s
  | .handle a => a

/-- lookup of a timestamp in series rows, first match wins (pandas index
alignment for unique indices). -/
def lookupTS (k : Int) : List (Int × Rat) → Option Rat
  | [] => none
  | p :: rest => if p.1 = k then some p.2 else lookupTS k rest

/-- inner join of two value lists on the timestamp, keeping the order of the
first operand: the row set of `pd.concat([a, b], axis=1, join="inner")`. -/
def innerJoin : List (Int × Rat) → List (Int × Rat) → List (Int × (Rat × Rat))
  | [], _ => []
  | p :: rest, b =>
    match lookupTS p.1 b with
    | some w => (p.1, (p.2, w)) :: innerJoin rest b
    | none => innerJoin rest b

/-- pandas scalar addition on a Series (`s + c`): the name is kept. -/
def seriesAdd (s : Series) (c : Rat) : Series :=
  ⟨s.name, s.data.map (fun p => (p.1, p.2 + c))⟩

/-- `ListMaker.set_currency`: fetch the `"{A}{B}.FX"` cross rate, turn both
series into growth factors, inner-join, multiply, subtract one, and rename
the result to the original series name. -/
def set_currency (env : Env) (returns : Series)
    (asset_currency list_currency : String) : Series :=
  let currency := env.asset (asset_currency ++ list_currency ++ ".FX")
  let asset_mult := seriesAdd returns 1
  let currency_mult := seriesAdd currency.ror 1
  let df := innerJoin asset_mult.data currency_mult.data
  ⟨returns.name, df.map (fun q => (q.1, q.2.1 * q.2.2 - 1))⟩

/-- `ListMaker.make_ror`: the asset return series as-is when its currency
already equals the list currency, otherwise converted via `set_currency`. -/
def make_ror (env : Env) (asset : AssetHandle) (currency_name : String) : Series :=
  if asset.currency = currency_name then asset.ror
  else set_currency env asset.ror asset.currency currency_name

/-- the working object `df` of the `make_list` loop: Python lets it be the
initial empty DataFrame, a Series after the first iteration, or a joined
DataFrame afterwards. -/
inductive Accum where
  | empty : Accum
  | series : Series → Accum
  | table : Table → Accum
deriving DecidableEq

/-- the date index of the working object. -/
def Accum.index : Accum → List Int
  | .empty => []
  | .series s => s.data.map Prod.fst
  | .table t => t.rows.map Prod.fst

/-- `pd.concat([s, t], axis=1, join="inner")` of two Series. -/
def seriesConcat (s t : Series) : Table :=
  ⟨[s.name, t.name], (innerJoin s.data t.data).map (fun q => (q.1, [q.2.1, q.2.2]))⟩

/-- `pd.concat([df, s], axis=1, join="inner")` of a DataFrame and a Series:
rows of `df` that also carry a value of `s`, with that value appended. -/
def tableJoin (t : Table) (s : Series) : Table :=
  ⟨t.cols ++ [s.name],
   t.rows.filterMap (fun r => (lookupTS r.1 s.data).map (fun w => (r.1, r.2 ++ [w])))⟩

/-- one iteration of the `make_list` loop, `df` part: the first asset seeds
the working object, every later asset is inner-joined onto it. -/
def listStep (env : Env) (currency_name : String) (acc : Accum) (x : AssetRef) : Accum :=
  let asset := resolveAsset env x
  let new := make_ror env asset currency_name
  match acc with
  | .empty => .series new
  | .series s => .table (seriesConcat s new)
  | .table t => .table (tableJoin t new)

/-- the final `if isinstance(df, pd.Series): df = df.to_frame()` step plus
the empty case: the working object as a DataFrame. -/
def Accum.toTable : Accum → Table
  | .empty => ⟨[], []⟩
  | .series s => ⟨[s.name], s.data.map (fun p => (p.1, [p.2]))⟩
  | .table t => t

/-- `dict.update({k: v})` on an association list: replace the value at an
existing key in place, else append the pair. -/
def updateA {α : Type} (m : List (String × α)) (k : String) (v : α) : List (String × α) :=
  if m.any (fun p => p.1 == k) then
    m.map (fun p => if p.1 = k then (k, v) else p)
  else m ++ [(k, v)]

/-- the dict accumulators of the `make_list` loop together with `df`. -/
structure LoopState where
  df : Accum
  first_dates : List (String × Int)
  last_dates : List (String × Int)
  names : List (String × String)
  currencies : List (String × String)
deriving DecidableEq

/-- one full iteration of the `make_list` loop: join the return series and
record currency, name and both availability bounds of the asset. -/
def loopStep (env : Env) (currency_name : String) (st : LoopState) (x : AssetRef) : LoopState :=
  let asset := resolveAsset env x
  { df := listStep env currency_name st.df x,
    first_dates := updateA st.first_dates asset.symbol asset.first_date,
    last_dates := updateA st.last_dates asset.symbol asset.last_date,
    names := updateA st.names asset.symbol asset.name,
    currencies := updateA st.currencies asset.symbol asset.currency }

/-- stable insertion of a pair into a list ascending by date value. -/
def insertByVal (p : String × Int) : List (String × Int) → List (String × Int)
  | [] => [p]
  | q :: rest => if p.2 ≤ q.2 then p :: q :: rest else q :: insertByVal p rest

/-- Python `sorted(d.items(), key=lambda y: y[1])`: a stable sort ascending
by the date value. -/
def sortByVal : List (String × Int) → List (String × Int)
  | [] => []
  | p :: rest => insertByVal p (sortByVal rest)

/-- `l[-1]` of a sorted nonempty list (a junk pair for the empty list, which
`make_list` never produces). -/
def lastOf : List (String × Int) → String × Int
  | [] => ("", 0)
  | [p] => p
  | _ :: q :: rest => lastOf (q :: rest)

/-- `l[0]` of a sorted nonempty list (a junk pair for the empty list). -/
def headOf : List (String × Int) → String × Int
  | [] => ("", 0)
  | p :: _ => p

/-- the dictionary returned by `ListMaker.make_list`. -/
structure MakeListResult where
  first_date : Int
  last_date : Int
  newest_asset : String
  eldest_asset : String
  names_dict : List (String × String)
  currencies_dict : List (String × String)
  assets_first_dates : List (String × Int)
  assets_last_dates : List (String × Int)
  ror : Table
deriving DecidableEq

/-- `ListMaker.make_list`: loop over the assets joining return series and
recording bounds, then record the base currency bounds, sort both bound
dicts by date, and read the global bounds and the newest and eldest asset
off the sorted lists. -/
def make_list (env : Env) (currencyAsset : AssetHandle) (ls : List AssetRef) : MakeListResult :=
  let currency_name := currencyAsset.name
  let st := ls.foldl (loopStep env currency_name) ⟨Accum.empty, [], [], [], []⟩
  let first_dates := updateA st.first_dates currency_name currencyAsset.first_date
  let last_dates := updateA st.last_dates currency_name currencyAsset.last_date
  let currencies := updateA st.currencies "asset list" currency_name
  let first_dates_sorted := sortByVal first_dates
  let last_dates_sorted := sortByVal last_dates
  { first_date := (lastOf first_dates_sorted).2,
    last_date := (headOf last_dates_sorted).2,
    newest_asset := (lastOf first_dates_sorted).1,
    eldest_asset := (headOf first_dates_sorted).1,
    names_dict := st.names,
    currencies_dict := currencies,
    assets_first_dates := first_dates_sorted,
    assets_last_dates := last_dates_sorted,
    ror := st.df.toTable }

/-- the optional inflation context of the constructed object (`hasattr`
gated fields of the source as an option, per the spec design notes). -/
structure InflationCtx where
  key : String
  ts : Series
  first_date : Int
  last_date : Int
deriving DecidableEq

/-- the constructor state after `make_list` unpacking. -/
structure InitState where
  first_date : Int
  last_date : Int
  newest_asset : String
  eldest_asset : String
  names : List (String × String)
  currencies : List (String × String)
  assets_first_dates : List (String × Int)
  assets_last_dates : List (String × Int)
  assets_ror : Table
  inflation : Option InflationCtx
deriving DecidableEq

/-- the `InitState` read off a `make_list` result, before inflation. -/
def initStateOf (ml : MakeListResult) : InitState :=
  { first_date := ml.first_date,
    last_date := ml.last_date,
    newest_asset := ml.newest_asset,
    eldest_asset := ml.eldest_asset,
    names := ml.names_dict,
    currencies := ml.currencies_dict,
    assets_first_dates := ml.assets_first_dates,
    assets_last_dates := ml.assets_last_dates,
    assets_ror := ml.ror,
    inflation := none }

/-- the `if inflation:` block of the constructor: fetch `"{ccy}.INFL"` over
the current bounds, tighten both global bounds with it, and register its
bounds in the asset bound dicts. -/
def applyInflation (env : Env) (ccy : String) (st : InitState) (enabled : Bool) : InitState :=
  if enabled then
    let key := ccy ++ ".INFL"
    let i := env.infl key st.first_date st.last_date
    { st with
      first_date := max st.first_date i.first_date,
      last_date := min st.last_date i.last_date,
      assets_first_dates := updateA st.assets_first_dates key i.first_date,
      assets_last_dates := updateA st.assets_last_dates key i.last_date,
      inflation := some ⟨key, i.values_ts, i.first_date, i.last_date⟩ }
  else st

/-- the constructor state right before the user-supplied bound overrides:
`make_list` on the resolved assets with `Asset(f"{ccy}.FX")` as the base
currency, then the inflation block. -/
def preOverrideState (env : Env) (ccy : String) (ls : List AssetRef) (inflationFlag : Bool) : InitState :=
  applyInflation env ccy (initStateOf (make_list env (env.asset (ccy ++ ".FX")) ls)) inflationFlag

/-- pandas label slice `df[a:]`: rows from label `a` on, inclusive. -/
def Table.sliceFrom (t : Table) (a : Int) : Table :=
  ⟨t.cols, t.rows.filter (fun r => decide (a ≤ r.1))⟩

/-- pandas label slice `df[a:b]`: rows between the labels, inclusive on both
ends. -/
def Table.sliceRange (t : Table) (a b : Int) : Table :=
  ⟨t.cols, t.rows.filter (fun r => decide (a ≤ r.1) && decide (r.1 ≤ b))⟩

/-- the two override steps of the constructor: tighten `first_date`, slice,
tighten `last_date`, slice again over the full window. -/
def applyOverrides (st : InitState) (first_dateArg last_dateArg : Option Int) : InitState :=
  let st1 :=
    match first_dateArg with
    | some fd => { st with first_date := max st.first_date fd }
    | none => st
  let st2 := { st1 with assets_ror := st1.assets_ror.sliceFrom st1.first_date }
  let st3 :=
    match last_dateArg with
    | some ld => { st2 with last_date := min st2.last_date ld }
    | none => st2
  { st3 with assets_ror := st3.assets_ror.sliceRange st3.first_date st3.last_date }

/-- Modelled from the spec: `settings._MONTHS_PER_YEAR` is not part of the
excerpt; the spec fixes exactly 12 periods per year for the row-count
arithmetic. -/
def months_per_year : Nat := 12

/-- one-decimal rounding, half to even, of the exact value days/365:
numpy `round(x, ndigits=1)` on the period length, computed in integer
arithmetic (`days * 10 / 365` floored, with the remainder deciding the
rounding direction). -/
def round1days (days : Int) : Rat :=
  let x := days * 10
  let n := x.fdiv 365
  let rem := x - 365 * n
  let r :=
    if 2 * rem < 365 then n
    else if 365 < 2 * rem then n + 1
    else if n % 2 = 0 then n else n + 1
  (r : Rat) / 10

/-- the fully constructed object: the sliced state plus the derived period
statistics (`period_length` from calendar subtraction over 365 days,
`pl` from the row count). -/
structure FinalState extends InitState where
  period_length : Rat
  pl_years : Nat
  pl_months : Nat
deriving DecidableEq

/-- the constructor body after the assets argument has been validated:
list assembly, inflation, overrides and the derived statistics. -/
def listMakerCore (env : Env) (ls : List AssetRef)
    (first_dateArg last_dateArg : Option Int) (ccy : String) (inflationFlag : Bool) : FinalState :=
  let st2 := applyOverrides (preOverrideState env ccy ls inflationFlag) first_dateArg last_dateArg
  { toInitState := st2,
    period_length := round1days (st2.last_date - st2.first_date),
    pl_years := st2.assets_ror.rows.length / months_per_year,
    pl_months := st2.assets_ror.rows.length % months_per_year }

/-- Modelled from the spec: `settings.default_ticker` is not part of the
excerpt; the module default ticker substituted for a missing or empty
assets argument. -/
def default_ticker : AssetRef := .symbol "SPY.US"

/-- the dynamic value passed as the constructor assets argument: `None`, a
list, or a non-list value such as a string or a tuple. -/
inductive AssetsArg where
  | pynone : AssetsArg
  | pylist : List AssetRef → AssetsArg
  | pystr : String → AssetsArg
  | pytuple : List AssetRef → AssetsArg
deriving DecidableEq

/-- Python truthiness of the assets argument: `None` and empty containers
are falsy. -/
def AssetsArg.truthy : AssetsArg → Bool
  | .pynone => false
  | .pylist l => !l.isEmpty
  | .pystr s => !s.isEmpty
  | .pytuple l => !l.isEmpty

/-- the `ListMaker.assets` property: substitute `[default_ticker]` for a
falsy argument, then reject anything that is not a list. -/
def assetsProp (a : AssetsArg) : Except String (List AssetRef) :=
  let assets := if a.truthy then a else AssetsArg.pylist [default_ticker]
  match assets with
  | .pylist l => .ok l
  | _ => .error "Assets must be a list."

/-- `ListMaker.__init__`: validate the assets argument through the `assets`
property, then run the constructor body. -/
def listMakerInit (env : Env) (assetsArg : AssetsArg)
    (first_dateArg last_dateArg : Option Int) (ccy : String) (inflationFlag : Bool) :
    Except String FinalState :=
  match assetsProp assetsArg with
  | .error e => .error e
  | .ok ls => .ok (listMakerCore env ls first_dateArg last_dateArg ccy inflationFlag)

/-- the error raised by `_validate_period`: either the failure of the
external integer validation or the history range check, the latter carrying
the two interpolated values of the message string
`"'period' (p) is beyond historical data range (x)."`. -/
inductive PeriodError where
  | notPositive : Int → PeriodError
  | beyondRange : Int → Rat → PeriodError
deriving DecidableEq

/-- Modelled from the spec: `validators.validate_integer` is not part of
the excerpt; per the spec it checks the period is an integer strictly above
the minimum value 0 (`min_value=0, inclusive=False`); the integer check is
carried by the `Int` type here. -/
def validate_integer_min0_exclusive (period : Int) : Except PeriodError Unit :=
  if period ≤ 0 then .error (.notPositive period) else .ok ()

/-- `ListMaker._validate_period`: the external integer validation followed
by `if period > self.pl.years: raise ValueError(...)` with `period` and
`self.period_length` interpolated into the message. -/
def validate_period (st : FinalState) (period : Int) : Except PeriodError Unit :=
  match validate_integer_min0_exclusive period with
  | .error e => .error e
  | .ok _ =>
    if (st.pl_years : Int) < period then .error (.beyondRange period st.period_length)
    else .ok ()

/-- a date is the maximum of the values recorded in a bound dict, and is
itself recorded. -/
def isMaxOfVals (v : Int) (m : List (String × Int)) : Prop :=
  (∃ p ∈ m, p.2 = v) ∧ ∀ p ∈ m, p.2 ≤ v

/-- a date is the minimum of the values recorded in a bound dict, and is
itself recorded. -/
def isMinOfVals (v : Int) (m : List (String × Int)) : Prop :=
  (∃ p ∈ m, p.2 = v) ∧ ∀ p ∈ m, v ≤ p.2

/-- the symbol column of the per-asset bound pairs recorded by the loop. -/
def pairsF (env : Env) (ls : List AssetRef) : List (String × Int) :=
  ls.map (fun x => ((resolveAsset env x).symbol, (resolveAsset env x).first_date))

/-- the per-asset last-date pairs recorded by the loop. -/
def pairsL (env : Env) (ls : List AssetRef) : List (String × Int) :=
  ls.map (fun x => ((resolveAsset env x).symbol, (resolveAsset env x).last_date))

/-- repeated `dict.update` over a pair list. -/
def foldPairs (m : List (String × Int)) (l : List (String × Int)) : List (String × Int) :=
  l.foldl (fun acc p => updateA acc p.1 p.2) m

/-! ### Concrete instances used by witnesses and counterexamples -/

/-- a placeholder handle returned by the providers for unknown symbols. -/
def dummyAsset : AssetHandle := ⟨"", "", "", 0, 0, ⟨"", []⟩⟩

/-- a placeholder inflation handle. -/
def dummyInfl : InflationHandle := ⟨⟨"", []⟩, 0, 0⟩

/-- a sample USD-denominated asset listed from day 10 to day 50. -/
def assetA1 : AssetHandle := ⟨"A.US", "Asset A", "USD", 10, 50, ⟨"A.US", [(10, 1 / 10), (20, 0)]⟩⟩

/-- a sample USD currency handle listed from day 0 to day 100. -/
def usdFx1 : AssetHandle := ⟨"USD.FX", "USD", "USD", 0, 100, ⟨"USD", []⟩⟩

/-- an environment with one USD asset and inflation starting on day 20,
later than every asset, so inflation is the binding start constraint. -/
def env1 : Env :=
  ⟨fun s => if s = "A.US" then assetA1 else if s = "USD.FX" then usdFx1 else dummyAsset,
   fun k _ _ => ⟨⟨k, []⟩, 20, 40⟩⟩

/-- an environment carrying one EUR-to-USD cross rate with data on days 1
and 3. -/
def env2 : Env :=
  ⟨fun s =>
    if s = "EURUSD.FX" then
      ⟨"EURUSD.FX", "EURUSD", "USD", 0, 100, ⟨"EURUSD", [(1, 1 / 100), (3, 2 / 100)]⟩⟩
    else dummyAsset,
   fun _ _ _ => dummyInfl⟩

/-- a sample EUR return series over days 1 and 2. -/
def ret2 : Series := ⟨"X.DE", [(1, 5 / 100), (2, 1 / 100)]⟩

/-- a forward cross-rate value list used for the round trip. -/
def fx9 : List (Int × Rat) := [(1, 1 / 4), (2, -1 / 2)]

/-- an environment with the EUR-to-USD rate `fx9` and the exact pointwise
inverse USD-to-EUR rate. -/
def env9 : Env :=
  ⟨fun s =>
    if s = "EURUSD.FX" then ⟨"EURUSD.FX", "EURUSD", "USD", 0, 100, ⟨"EURUSD", fx9⟩⟩
    else if s = "USDEUR.FX" then
      ⟨"USDEUR.FX", "USDEUR", "EUR", 0, 100,
        ⟨"USDEUR", fx9.map (fun p => (p.1, 1 / (p.2 + 1) - 1))⟩⟩
    else dummyAsset,
   fun _ _ _ => dummyInfl⟩

/-- a USD asset whose history ends on day 50, used with a first-date
override of day 100 that inverts the range. -/
def assetB5 : AssetHandle := ⟨"B.US", "Asset B", "USD", 0, 50, ⟨"B.US", [(0, 0), (10, 0)]⟩⟩

/-- the USD currency handle of the inverted-range environment. -/
def usdFx5 : AssetHandle := ⟨"USD.FX", "USD", "USD", 0, 50, ⟨"USD", []⟩⟩

/-- the environment for the inverted-range observation. -/
def env5 : Env :=
  ⟨fun s => if s = "B.US" then assetB5 else if s = "USD.FX" then usdFx5 else dummyAsset,
   fun _ _ _ => dummyInfl⟩

/-- a USD asset with 31 monthly rows, days 1000 to 1900 in 30-day steps. -/
def assetC6 : AssetHandle :=
  ⟨"C.US", "Asset C", "USD", 1000, 1900,
   ⟨"C.US", (List.range 31).map (fun i => (1000 + 30 * (i : Int), (0 : Rat)))⟩⟩

/-- a USD currency handle with a very wide listing range. -/
def usdFx6 : AssetHandle := ⟨"USD.FX", "USD", "USD", 0, 100000, ⟨"USD", []⟩⟩

/-- the environment for the period-validation observation. -/
def env6 : Env :=
  ⟨fun s => if s = "C.US" then assetC6 else if s = "USD.FX" then usdFx6 else dummyAsset,
   fun _ _ _ => dummyInfl⟩

/-- the constructed object over `env6`: 31 monthly rows spanning 900
calendar days, hence 2 whole years but calendar length 2.5. -/
def st6 : FinalState := listMakerCore env6 [.symbol "C.US"] none none "USD" false

/-- an environment answering every symbol with the placeholder handle. -/
def env4a : Env := ⟨fun _ => dummyAsset, fun _ _ _ => dummyInfl⟩

/-- an environment answering every symbol with the sample asset, differing
from `env4a` everywhere. -/
def env4b : Env := ⟨fun _ => assetA1, fun _ _ _ => ⟨⟨"", []⟩, 5, 5⟩⟩

/-! ### Lookup and join lemmas -/

theorem lookupTS_map (f : Rat → Rat) (k : Int) (l : List (Int × Rat)) :
    lookupTS k (l.map (fun p => (p.1, f p.2))) = (lookupTS k l).map f := by
  induction l with
  | nil => rfl
  | cons p rest ih =>
    by_cases h : p.1 = k <;> simp [lookupTS, h, ih]

theorem lookupTS_mem {k : Int} {w : Rat} {l : List (Int × Rat)}
    (h : lookupTS k l = some w) : (k, w) ∈ l := by
  induction l with
  | nil => cases h
  | cons p rest ih =>
    obtain ⟨a, b⟩ := p
    by_cases ha : a = k
    · rw [lookupTS, if_pos ha] at h
      subst ha
      injection h with h
      subst h
      exact List.mem_cons.2 (Or.inl rfl)
    · rw [lookupTS, if_neg ha] at h
      exact List.mem_cons_of_mem _ (ih h)

theorem lookupTS_isSome {k : Int} {l : List (Int × Rat)} :
    (lookupTS k l).isSome = true ↔ k ∈ l.map Prod.fst := by
  induction l with
  | nil => simp [lookupTS]
  | cons p rest ih =>
    obtain ⟨a, b⟩ := p
    by_cases h : a = k
    · simp [lookupTS, h]
    · rw [lookupTS, if_neg h, ih, List.map_cons, List.mem_cons]
      constructor
      · exact fun hm => Or.inr hm
      · rintro (heq | hm)
        · exact absurd heq.symm h
        · exact hm

theorem innerJoin_fst_subset (a b : List (Int × Rat)) :
    (innerJoin a b).map Prod.fst ⊆ a.map Prod.fst := by
  induction a with
  | nil => intro x hx; simp [innerJoin] at hx
  | cons p rest ih =>
    cases h : lookupTS p.1 b with
    | none =>
      simp only [innerJoin, h, List.map_cons]
      exact ih.trans (List.subset_cons_self _ _)
    | some w =>
      simp only [innerJoin, h, List.map_cons]
      exact List.cons_subset_cons _ ih

theorem tableJoin_fst_subset (t : Table) (s : Series) :
    (tableJoin t s).rows.map Prod.fst ⊆ t.rows.map Prod.fst := by
  intro k hk
  simp only [tableJoin, List.mem_map, List.mem_filterMap] at hk
  obtain ⟨q, ⟨r, hr, hq⟩, hqk⟩ := hk
  rcases Option.map_eq_some'.1 hq with ⟨w, _, hqe⟩
  subst hqe
  exact List.mem_map.2 ⟨r, hr, by simpa using hqk⟩

/-! ### Dict update lemmas -/

theorem updateA_mem_self {α : Type} (m : List (String × α)) (k : String) (v : α) :
    (k, v) ∈ updateA m k v := by
  unfold updateA
  by_cases h : m.any (fun p => p.1 == k) = true
  · rw [if_pos h]
    rcases List.any_eq_true.1 h with ⟨p, hp, hpk⟩
    exact List.mem_map.2 ⟨p, hp, by rw [if_pos (by simpa using hpk)]⟩
  · rw [if_neg h]
    exact List.mem_append_right _ (List.mem_singleton.2 rfl)

theorem updateA_mem_of_ne {α : Type} {m : List (String × α)} {q : String × α}
    (k : String) (v : α) (hq : q ∈ m) (hne : q.1 ≠ k) : q ∈ updateA m k v := by
  unfold updateA
  by_cases h : m.any (fun p => p.1 == k) = true
  · rw [if_pos h]
    exact List.mem_map.2 ⟨q, hq, by rw [if_neg hne]⟩
  · rw [if_neg h]
    exact List.mem_append_left _ hq

theorem updateA_mem_elim {α : Type} {m : List (String × α)} {k : String} {v : α}
    {q : String × α} (hq : q ∈ updateA m k v) :
    q = (k, v) ∨ (q ∈ m ∧ q.1 ≠ k) := by
  unfold updateA at hq
  by_cases h : m.any (fun p => p.1 == k) = true
  · rw [if_pos h] at hq
    rcases List.mem_map.1 hq with ⟨p, hp, hpq⟩
    by_cases hpk : p.1 = k
    · rw [if_pos hpk] at hpq
      exact Or.inl hpq.symm
    · rw [if_neg hpk] at hpq
      subst hpq
      exact Or.inr ⟨hp, hpk⟩
  · rw [if_neg h] at hq
    rcases List.mem_append.1 hq with hq | hq
    · refine Or.inr ⟨hq, fun hk => h ?_⟩
      exact List.any_eq_true.2 ⟨q, hq, by simp [hk]⟩
    · exact Or.inl (List.mem_singleton.1 hq)

theorem updateA_ne_nil {α : Type} (m : List (String × α)) (k : String) (v : α) :
    updateA m k v ≠ [] := by
  unfold updateA
  by_cases h : m.any (fun p => p.1 == k) = true
  · rw [if_pos h]
    rcases List.any_eq_true.1 h with ⟨p, hp, _⟩
    intro hnil
    rw [List.map_eq_nil_iff] at hnil
    subst hnil
    cases hp
  · rw [if_neg h]
    simp

/-! ### Stable sort lemmas -/

theorem insertByVal_perm (p : String × Int) (l : List (String × Int)) :
    (insertByVal p l).Perm (p :: l) := by
  induction l with
  | nil => exact List.Perm.refl _
  | cons q rest ih =>
    by_cases h : p.2 ≤ q.2
    · rw [insertByVal, if_pos h]
    · rw [insertByVal, if_neg h]
      exact (ih.cons q).trans (List.Perm.swap p q rest)

theorem sortByVal_perm (l : List (String × Int)) : (sortByVal l).Perm l := by
  induction l with
  | nil => exact List.Perm.refl _
  | cons p rest ih =>
    exact (insertByVal_perm p (sortByVal rest)).trans (ih.cons p)

theorem insertByVal_pairwise {l : List (String × Int)} (p : String × Int)
    (hl : l.Pairwise (fun a b => a.2 ≤ b.2)) :
    (insertByVal p l).Pairwise (fun a b => a.2 ≤ b.2) := by
  induction l with
  | nil => simp [insertByVal]
  | cons q rest ih =>
    rw [List.pairwise_cons] at hl
    obtain ⟨hq, hrest⟩ := hl
    by_cases h : p.2 ≤ q.2
    · rw [insertByVal, if_pos h, List.pairwise_cons]
      refine ⟨?_, List.pairwise_cons.2 ⟨hq, hrest⟩⟩
      intro b hb
      rcases List.mem_cons.1 hb with rfl | hb
      · exact h
      · exact le_trans h (hq b hb)
    · rw [insertByVal, if_neg h, List.pairwise_cons]
      refine ⟨?_, ih hrest⟩
      intro b hb
      rcases List.mem_cons.1 ((insertByVal_perm p rest).mem_iff.1 hb) with rfl | hb
      · exact le_of_lt (not_le.1 h)
      · exact hq b hb

theorem sortByVal_pairwise (l : List (String × Int)) :
    (sortByVal l).Pairwise (fun a b => a.2 ≤ b.2) := by
  induction l with
  | nil => simp [sortByVal]
  | cons p rest ih => exact insertByVal_pairwise p ih

theorem sortByVal_ne_nil {l : List (String × Int)} (h : l ≠ []) : sortByVal l ≠ [] := by
  intro hnil
  have hlen := (sortByVal_perm l).length_eq
  rw [hnil] at hlen
  exact h (List.length_eq_zero.1 hlen.symm)

theorem lastOf_mem : ∀ (l : List (String × Int)), l ≠ [] → lastOf l ∈ l
  | [], h => absurd rfl h
  | [p], _ => List.mem_singleton.2 rfl
  | p :: q :: rest, _ =>
    List.mem_cons_of_mem p (lastOf_mem (q :: rest) (by simp))

theorem pairwise_le_lastOf : ∀ (l : List (String × Int)),
    l.Pairwise (fun a b => a.2 ≤ b.2) → ∀ p ∈ l, p.2 ≤ (lastOf l).2
  | [], _, p, hp => absurd hp (by simp)
  | [q], _, p, hp => by
      rcases List.mem_singleton.1 hp with rfl
      exact le_refl _
  | q :: r :: rest, h, p, hp => by
      rw [List.pairwise_cons] at h
      obtain ⟨hq, hrest⟩ := h
      rcases List.mem_cons.1 hp with rfl | hp
      · exact hq _ (lastOf_mem (r :: rest) (by simp))
      · exact pairwise_le_lastOf (r :: rest) hrest p hp

theorem headOf_mem : ∀ (l : List (String × Int)), l ≠ [] → headOf l ∈ l
  | [], h => absurd rfl h
  | p :: rest, _ => List.mem_cons_self p rest

theorem pairwise_headOf_le : ∀ (l : List (String × Int)),
    l.Pairwise (fun a b => a.2 ≤ b.2) → ∀ p ∈ l, (headOf l).2 ≤ p.2
  | [], _, p, hp => absurd hp (by simp)
  | q :: rest, h, p, hp => by
      rw [List.pairwise_cons] at h
      rcases List.mem_cons.1 hp with rfl | hp
      · exact le_refl _
      · exact h.1 p hp

theorem sorted_isMax (m : List (String × Int)) (hm : m ≠ []) :
    isMaxOfVals ((lastOf (sortByVal m)).2) (sortByVal m) := by
  constructor
  · exact ⟨lastOf (sortByVal m), lastOf_mem _ (sortByVal_ne_nil hm), rfl⟩
  · exact pairwise_le_lastOf _ (sortByVal_pairwise m)

theorem sorted_isMin (m : List (String × Int)) (hm : m ≠ []) :
    isMinOfVals ((headOf (sortByVal m)).2) (sortByVal m) := by
  constructor
  · exact ⟨headOf (sortByVal m), headOf_mem _ (sortByVal_ne_nil hm), rfl⟩
  · exact pairwise_headOf_le _ (sortByVal_pairwise m)

theorem isMax_updateA_fresh {v : Int} {m : List (String × Int)} {k : String} {w : Int}
    (hmax : isMaxOfVals v m) (hfresh : ∀ p ∈ m, p.1 ≠ k) :
    isMaxOfVals (max v w) (updateA m k w) := by
  constructor
  · rcases le_total v w with hvw | hwv
    · exact ⟨(k, w), updateA_mem_self m k w, (max_eq_right hvw).symm⟩
    · obtain ⟨p, hp, hpv⟩ := hmax.1
      exact ⟨p, updateA_mem_of_ne k w hp (hfresh p hp), by rw [hpv, max_eq_left hwv]⟩
  · intro p hp
    rcases updateA_mem_elim hp with rfl | ⟨hp, _⟩
    · exact le_max_right v w
    · exact le_trans (hmax.2 p hp) (le_max_left v w)

theorem isMin_updateA_fresh {v : Int} {m : List (String × Int)} {k : String} {w : Int}
    (hmin : isMinOfVals v m) (hfresh : ∀ p ∈ m, p.1 ≠ k) :
    isMinOfVals (min v w) (updateA m k w) := by
  constructor
  · rcases le_total w v with hwv | hvw
    · exact ⟨(k, w), updateA_mem_self m k w, (min_eq_right hwv).symm⟩
    · obtain ⟨p, hp, hpv⟩ := hmin.1
      exact ⟨p, updateA_mem_of_ne k w hp (hfresh p hp), by rw [hpv, min_eq_left hvw]⟩
  · intro p hp
    rcases updateA_mem_elim hp with rfl | ⟨hp, _⟩
    · exact min_le_right v w
    · exact le_trans (min_le_left v w) (hmin.2 p hp)

/-! ### Fold lemmas -/

theorem foldPairs_mem_of_fresh {q : String × Int} (l : List (String × Int)) :
    ∀ (m : List (String × Int)), q ∈ m → q.1 ∉ l.map Prod.fst → q ∈ foldPairs m l := by
  induction l with
  | nil => intro m hq _; exact hq
  | cons a rest ih =>
    intro m hq hfresh
    rw [List.map_cons, List.mem_cons, not_or] at hfresh
    exact ih _ (updateA_mem_of_ne _ _ hq hfresh.1) hfresh.2

theorem foldPairs_mem_self (l : List (String × Int)) :
    ∀ (m : List (String × Int)), (l.map Prod.fst).Nodup → ∀ q ∈ l, q ∈ foldPairs m l := by
  induction l with
  | nil => intro m _ q hq; cases hq
  | cons a rest ih =>
    intro m hnd q hq
    rw [List.map_cons, List.nodup_cons] at hnd
    rcases List.mem_cons.1 hq with rfl | hq
    · exact foldPairs_mem_of_fresh rest _ (updateA_mem_self m q.1 q.2) hnd.1
    · exact ih _ hnd.2 q hq

theorem foldPairs_keys (l : List (String × Int)) :
    ∀ (m : List (String × Int)) (q : String × Int), q ∈ foldPairs m l →
      q.1 ∈ m.map Prod.fst ∨ q.1 ∈ l.map Prod.fst := by
  induction l with
  | nil => intro m q hq; exact Or.inl (List.mem_map.2 ⟨q, hq, rfl⟩)
  | cons a rest ih =>
    intro m q hq
    rcases ih _ q hq with h | h
    · rcases List.mem_map.1 h with ⟨p, hp, hpk⟩
      rcases updateA_mem_elim hp with rfl | ⟨hp, _⟩
      · exact Or.inr (by simp [← hpk])
      · exact Or.inl (hpk ▸ List.mem_map.2 ⟨p, hp, rfl⟩)
    · exact Or.inr (by simp [h])

theorem foldl_loopStep_first_dates (env : Env) (n : String) (ls : List AssetRef) :
    ∀ (st : LoopState),
      (ls.foldl (loopStep env n) st).first_dates = foldPairs st.first_dates (pairsF env ls) := by
  induction ls with
  | nil => intro st; rfl
  | cons x rest ih =>
    intro st
    show (rest.foldl (loopStep env n) (loopStep env n st x)).first_dates = _
    rw [ih]
    rfl

theorem foldl_loopStep_last_dates (env : Env) (n : String) (ls : List AssetRef) :
    ∀ (st : LoopState),
      (ls.foldl (loopStep env n) st).last_dates = foldPairs st.last_dates (pairsL env ls) := by
  induction ls with
  | nil => intro st; rfl
  | cons x rest ih =>
    intro st
    show (rest.foldl (loopStep env n) (loopStep env n st x)).last_dates = _
    rw [ih]
    rfl

/-! ### make_list characterization -/

theorem make_list_assets_first_dates (env : Env) (ca : AssetHandle) (ls : List AssetRef) :
    (make_list env ca ls).assets_first_dates
      = sortByVal (updateA (foldPairs [] (pairsF env ls)) ca.name ca.first_date) := by
  show sortByVal (updateA
      (ls.foldl (loopStep env ca.name) ⟨Accum.empty, [], [], [], []⟩).first_dates
      ca.name ca.first_date) = _
  rw [foldl_loopStep_first_dates]

theorem make_list_assets_last_dates (env : Env) (ca : AssetHandle) (ls : List AssetRef) :
    (make_list env ca ls).assets_last_dates
      = sortByVal (updateA (foldPairs [] (pairsL env ls)) ca.name ca.last_date) := by
  show sortByVal (updateA
      (ls.foldl (loopStep env ca.name) ⟨Accum.empty, [], [], [], []⟩).last_dates
      ca.name ca.last_date) = _
  rw [foldl_loopStep_last_dates]

theorem make_list_first_date_eq (env : Env) (ca : AssetHandle) (ls : List AssetRef) :
    (make_list env ca ls).first_date
      = (lastOf (make_list env ca ls).assets_first_dates).2 := rfl

theorem make_list_last_date_eq (env : Env) (ca : AssetHandle) (ls : List AssetRef) :
    (make_list env ca ls).last_date
      = (headOf (make_list env ca ls).assets_last_dates).2 := rfl

theorem make_list_first_date_isMax (env : Env) (ca : AssetHandle) (ls : List AssetRef) :
    isMaxOfVals (make_list env ca ls).first_date (make_list env ca ls).assets_first_dates := by
  rw [make_list_first_date_eq, make_list_assets_first_dates]
  exact sorted_isMax _ (updateA_ne_nil _ _ _)

theorem make_list_last_date_isMin (env : Env) (ca : AssetHandle) (ls : List AssetRef) :
    isMinOfVals (make_list env ca ls).last_date (make_list env ca ls).assets_last_dates := by
  rw [make_list_last_date_eq, make_list_assets_last_dates]
  exact sorted_isMin _ (updateA_ne_nil _ _ _)

theorem make_list_first_keys (env : Env) (ca : AssetHandle) (ls : List AssetRef)
    {q : String × Int} (hq : q ∈ (make_list env ca ls).assets_first_dates) :
    q.1 ∈ ls.map (fun x => (resolveAsset env x).symbol) ∨ q.1 = ca.name := by
  rw [make_list_assets_first_dates] at hq
  replace hq := (sortByVal_perm _).mem_iff.1 hq
  rcases updateA_mem_elim hq with rfl | ⟨hq, _⟩
  · exact Or.inr rfl
  · rcases foldPairs_keys _ _ q hq with h | h
    · simp at h
    · refine Or.inl ?_
      simpa [pairsF, List.map_map, Function.comp] using h

theorem make_list_last_keys (env : Env) (ca : AssetHandle) (ls : List AssetRef)
    {q : String × Int} (hq : q ∈ (make_list env ca ls).assets_last_dates) :
    q.1 ∈ ls.map (fun x => (resolveAsset env x).symbol) ∨ q.1 = ca.name := by
  rw [make_list_assets_last_dates] at hq
  replace hq := (sortByVal_perm _).mem_iff.1 hq
  rcases updateA_mem_elim hq with rfl | ⟨hq, _⟩
  · exact Or.inr rfl
  · rcases foldPairs_keys _ _ q hq with h | h
    · simp at h
    · refine Or.inl ?_
      simpa [pairsL, List.map_map, Function.comp] using h

theorem make_list_mem_first (env : Env) (ca : AssetHandle) (ls : List AssetRef)
    (hnd : (ls.map (fun x => (resolveAsset env x).symbol)).Nodup)
    (hccy : ca.name ∉ ls.map (fun x => (resolveAsset env x).symbol))
    {x : AssetRef} (hx : x ∈ ls) :
    ((resolveAsset env x).symbol, (resolveAsset env x).first_date)
      ∈ (make_list env ca ls).assets_first_dates := by
  rw [make_list_assets_first_dates, (sortByVal_perm _).mem_iff]
  refine updateA_mem_of_ne _ _ ?_ ?_
  · refine foldPairs_mem_self _ _ ?_ _ ?_
    · simpa [pairsF, List.map_map, Function.comp] using hnd
    · exact List.mem_map.2 ⟨x, hx, rfl⟩
  · intro h
    exact hccy (h ▸ List.mem_map.2 ⟨x, hx, rfl⟩)

theorem make_list_mem_last (env : Env) (ca : AssetHandle) (ls : List AssetRef)
    (hnd : (ls.map (fun x => (resolveAsset env x).symbol)).Nodup)
    (hccy : ca.name ∉ ls.map (fun x => (resolveAsset env x).symbol))
    {x : AssetRef} (hx : x ∈ ls) :
    ((resolveAsset env x).symbol, (resolveAsset env x).last_date)
      ∈ (make_list env ca ls).assets_last_dates := by
  rw [make_list_assets_last_dates, (sortByVal_perm _).mem_iff]
  refine updateA_mem_of_ne _ _ ?_ ?_
  · refine foldPairs_mem_self _ _ ?_ _ ?_
    · simpa [pairsL, List.map_map, Function.comp] using hnd
    · exact List.mem_map.2 ⟨x, hx, rfl⟩
  · intro h
    exact hccy (h ▸ List.mem_map.2 ⟨x, hx, rfl⟩)

theorem make_list_mem_ccy_first (env : Env) (ca : AssetHandle) (ls : List AssetRef) :
    (ca.name, ca.first_date) ∈ (make_list env ca ls).assets_first_dates := by
  rw [make_list_assets_first_dates, (sortByVal_perm _).mem_iff]
  exact updateA_mem_self _ _ _

theorem make_list_mem_ccy_last (env : Env) (ca : AssetHandle) (ls : List AssetRef) :
    (ca.name, ca.last_date) ∈ (make_list env ca ls).assets_last_dates := by
  rw [make_list_assets_last_dates, (sortByVal_perm _).mem_iff]
  exact updateA_mem_self _ _ _

/-! ### set_currency characterization -/

theorem innerJoin_add_mul (fx : List (Int × Rat)) :
    ∀ (rd : List (Int × Rat)),
      (innerJoin (rd.map (fun p => (p.1, p.2 + 1))) (fx.map (fun p => (p.1, p.2 + 1)))).map
          (fun q => (q.1, q.2.1 * q.2.2 - 1))
        = rd.filterMap (fun p =>
            (lookupTS p.1 fx).map (fun w => (p.1, (p.2 + 1) * (w + 1) - 1))) := by
  intro rd
  induction rd with
  | nil => rfl
  | cons p rest ih =>
    rw [List.map_cons]
    cases h : lookupTS p.1 fx with
    | none =>
      have h2 : lookupTS p.1 (fx.map (fun p => (p.1, p.2 + 1))) = none := by
        rw [lookupTS_map (fun v => v + 1) p.1 fx, h]
        rfl
      simp only [innerJoin, h2, List.filterMap_cons, h]
      exact ih
    | some w =>
      have h2 : lookupTS p.1 (fx.map (fun p => (p.1, p.2 + 1))) = some (w + 1) := by
        rw [lookupTS_map (fun v => v + 1) p.1 fx, h]
        rfl
      simp only [innerJoin, h2, List.filterMap_cons, h, List.map_cons, Option.map_some']
      rw [ih]

theorem set_currency_data (env : Env) (r : Series) (A B : String) :
    (set_currency env r A B).data
      = r.data.filterMap (fun p =>
          (lookupTS p.1 (env.asset (A ++ B ++ ".FX")).ror.data).map
            (fun w => (p.1, (p.2 + 1) * (w + 1) - 1))) := by
  show (innerJoin (r.data.map (fun p => (p.1, p.2 + 1)))
      ((env.asset (A ++ B ++ ".FX")).ror.data.map (fun p => (p.1, p.2 + 1)))).map
      (fun q => (q.1, q.2.1 * q.2.2 - 1)) = _
  exact innerJoin_add_mul _ r.data

theorem set_currency_name (env : Env) (r : Series) (A B : String) :
    (set_currency env r A B).name = r.name := rfl

/-! ### applyInflation projections -/

theorem applyInflation_first_dates (env : Env) (ccy : String) (st : InitState) :
    (applyInflation env ccy st true).assets_first_dates
      = updateA st.assets_first_dates (ccy ++ ".INFL")
          (env.infl (ccy ++ ".INFL") st.first_date st.last_date).first_date := rfl

theorem applyInflation_last_dates (env : Env) (ccy : String) (st : InitState) :
    (applyInflation env ccy st true).assets_last_dates
      = updateA st.assets_last_dates (ccy ++ ".INFL")
          (env.infl (ccy ++ ".INFL") st.first_date st.last_date).last_date := rfl

theorem applyInflation_first_date (env : Env) (ccy : String) (st : InitState) :
    (applyInflation env ccy st true).first_date
      = max st.first_date (env.infl (ccy ++ ".INFL") st.first_date st.last_date).first_date := rfl

theorem applyInflation_last_date (env : Env) (ccy : String) (st : InitState) :
    (applyInflation env ccy st true).last_date
      = min st.last_date (env.infl (ccy ++ ".INFL") st.first_date st.last_date).last_date := rfl

theorem applyInflation_false (env : Env) (ccy : String) (st : InitState) :
    applyInflation env ccy st false = st := rfl

/-! ### Claim C7 -/

/-- C7 (amended): the inflation bounds are registered in the same bound
dicts used for assets, but newest_asset and eldest_asset are taken from
make_list before inflation integration and stay unchanged. -/
theorem applyInflation_registers_bounds_keeps_newest (env : Env) (ccy : String) (st : InitState) :
    ((ccy ++ ".INFL", (env.infl (ccy ++ ".INFL") st.first_date st.last_date).first_date)
        ∈ (applyInflation env ccy st true).assets_first_dates)
    ∧ ((ccy ++ ".INFL", (env.infl (ccy ++ ".INFL") st.first_date st.last_date).last_date)
        ∈ (applyInflation env ccy st true).assets_last_dates)
    ∧ (applyInflation env ccy st true).newest_asset = st.newest_asset
    ∧ (applyInflation env ccy st true).eldest_asset = st.eldest_asset := by
  refine ⟨?_, ?_, rfl, rfl⟩
  · rw [applyInflation_first_dates]
    exact updateA_mem_self _ _ _
  · rw [applyInflation_last_dates]
    exact updateA_mem_self _ _ _

/-- C7 (counterexample): with inflation starting on day 20, strictly later
than every asset, inflation carries the latest recorded first date yet
newest_asset still names the pre-inflation asset, not the inflation key. -/
theorem inflation_not_reported_as_newest_asset :
    (("USD.INFL", (20 : Int))
        ∈ (preOverrideState env1 "USD" [.symbol "A.US"] true).assets_first_dates)
    ∧ (∀ p ∈ (preOverrideState env1 "USD" [.symbol "A.US"] true).assets_first_dates,
        p.1 ≠ "USD.INFL" → p.2 < 20)
    ∧ (preOverrideState env1 "USD" [.symbol "A.US"] true).newest_asset = "A.US"
    ∧ (preOverrideState env1 "USD" [.symbol "A.US"] true).newest_asset ≠ "USD.INFL" := by
  refine ⟨by decide, by decide, by decide, by decide⟩

/-! ### Claim C3 -/

/-- C3: each successive inner join of an asset onto a nonempty accumulating
working object produces a date index that is a subset of (or equal to) the
index the accumulator had before the join. -/
theorem listStep_index_subset (env : Env) (n : String) (acc : Accum) (x : AssetRef)
    (h : acc ≠ Accum.empty) :
    (listStep env n acc x).index ⊆ acc.index := by
  cases acc with
  | empty => exact absurd rfl h
  | series s =>
    intro k hk
    have hk' : k ∈ ((innerJoin s.data (make_ror env (resolveAsset env x) n).data).map
        (fun q => (q.1, ([q.2.1, q.2.2] : List Rat)))).map Prod.fst := hk
    rcases List.mem_map.1 hk' with ⟨q, hq, hqk⟩
    rcases List.mem_map.1 hq with ⟨j, hj, hje⟩
    subst hje
    subst hqk
    exact innerJoin_fst_subset _ _ (List.mem_map.2 ⟨j, hj, rfl⟩)
  | table t =>
    intro k hk
    have hk' : k ∈ (tableJoin t (make_ror env (resolveAsset env x) n)).rows.map Prod.fst := hk
    exact tableJoin_fst_subset _ _ hk'

/-- C3 witness: a concrete nonempty accumulator joined with a concrete
asset. -/
theorem listStep_index_subset_witness :
    (Accum.series ⟨"s", [(1, 0)]⟩) ≠ Accum.empty
    ∧ (listStep env1 "USD" (Accum.series ⟨"s", [(1, 0)]⟩) (.symbol "A.US")).index
        ⊆ (Accum.series ⟨"s", [(1, 0)]⟩).index :=
  ⟨by decide, listStep_index_subset env1 "USD" _ _ (by decide)⟩

/-! ### Claim C4 -/

/-- C4: when the asset currency already equals the list currency, currency
normalization is the identity on the return series and requests no FX cross
rate: the result is the same under any environment. -/
theorem make_ror_identity_on_matching_currency (enva envb : Env) (asset : AssetHandle)
    (n : String) (h : asset.currency = n) :
    make_ror enva asset n = asset.ror
    ∧ make_ror enva asset n = make_ror envb asset n := by
  exact ⟨by simp [make_ror, h], by simp [make_ror, h]⟩

/-- C4 witness: the sample USD asset under two environments that differ on
every FX symbol. -/
theorem make_ror_identity_on_matching_currency_witness :
    make_ror env4a assetA1 "USD" = assetA1.ror
    ∧ make_ror env4a assetA1 "USD" = make_ror env4b assetA1 "USD" :=
  make_ror_identity_on_matching_currency env4a env4b assetA1 "USD" (by decide)

/-! ### Claim C8 -/

/-- C8: a single-asset list yields a table with exactly one data column and
one value per row, never a bare series. -/
theorem make_list_single_asset_one_column (env : Env) (ca : AssetHandle) (x : AssetRef) :
    (make_list env ca [x]).ror.cols.length = 1
    ∧ ∀ r ∈ (make_list env ca [x]).ror.rows, r.2.length = 1 := by
  constructor
  · rfl
  · intro r hr
    have hr' : r ∈ (make_ror env (resolveAsset env x) ca.name).data.map
        (fun p => (p.1, ([p.2] : List Rat))) := hr
    rcases List.mem_map.1 hr' with ⟨p, _, hpe⟩
    rw [← hpe]
    rfl

/-- C8 witness: the single-asset list over the sample environment. -/
theorem make_list_single_asset_one_column_witness :
    (make_list env1 usdFx1 [.symbol "A.US"]).ror.cols.length = 1
    ∧ ∀ r ∈ (make_list env1 usdFx1 [.symbol "A.US"]).ror.rows, r.2.length = 1 :=
  make_list_single_asset_one_column env1 usdFx1 (.symbol "A.US")

/-! ### Claim C10 -/

/-- C10: a None or empty assets argument silently becomes the one-element
default-ticker list; any truthy non-list argument is rejected with the
ValueError message "Assets must be a list."; a truthy list passes
through unchanged. -/
theorem assets_property_defaults_and_rejects :
    assetsProp .pynone = .ok [default_ticker]
    ∧ assetsProp (.pylist []) = .ok [default_ticker]
    ∧ assetsProp (.pystr "") = .ok [default_ticker]
    ∧ assetsProp (.pytuple []) = .ok [default_ticker]
    ∧ (∀ s : String, s ≠ "" → assetsProp (.pystr s) = .error "Assets must be a list.")
    ∧ (∀ l : List AssetRef, l ≠ [] → assetsProp (.pytuple l) = .error "Assets must be a list.")
    ∧ (∀ l : List AssetRef, l ≠ [] → assetsProp (.pylist l) = .ok l) := by
  refine ⟨rfl, rfl, rfl, rfl, ?_, ?_, ?_⟩
  · intro s hs
    have ht : (AssetsArg.pystr s).truthy = true := by
      simp only [AssetsArg.truthy, Bool.not_eq_true']
      exact Bool.eq_false_iff.2 (fun he => hs ((String.isEmpty_iff s).1 he))
    simp [assetsProp, ht]
  · intro l hl
    have ht : (AssetsArg.pytuple l).truthy = true := by
      simp [AssetsArg.truthy, hl]
    simp [assetsProp, ht]
  · intro l hl
    have ht : (AssetsArg.pylist l).truthy = true := by
      simp [AssetsArg.truthy, hl]
    simp [assetsProp, ht]

/-- C10 witness: a nonempty string and tuple are rejected, a nonempty list
passes through. -/
theorem assets_property_defaults_and_rejects_witness :
    assetsProp (.pystr "SPY") = .error "Assets must be a list."
    ∧ assetsProp (.pytuple [default_ticker]) = .error "Assets must be a list."
    ∧ assetsProp (.pylist [.symbol "A.US"]) = .ok [.symbol "A.US"] := by
  refine ⟨?_, ?_, ?_⟩
  · exact assets_property_defaults_and_rejects.2.2.2.2.1 "SPY" (by decide)
  · exact assets_property_defaults_and_rejects.2.2.2.2.2.1 [default_ticker] (by decide)
  · exact assets_property_defaults_and_rejects.2.2.2.2.2.2 [.symbol "A.US"] (by decide)

/-! ### Claim C2 -/

/-- C2: for a series in currency A and target currency B with A different
from B, currency normalization produces values at exactly the timestamps
present in both the series and the A-to-B cross rate, each equal to
(1+r)*(1+fx)-1, and the result keeps the original series name. -/
theorem set_currency_inner_join_spec (env : Env) (returns : Series) (A B : String)
    (hAB : A ≠ B) :
    (set_currency env returns A B).name = returns.name
    ∧ (∀ k : Int, k ∈ (set_currency env returns A B).data.map Prod.fst
        ↔ k ∈ returns.data.map Prod.fst
          ∧ k ∈ (env.asset (A ++ B ++ ".FX")).ror.data.map Prod.fst)
    ∧ (∀ k v w, (k, v) ∈ returns.data
        → lookupTS k (env.asset (A ++ B ++ ".FX")).ror.data = some w
        → (k, (1 + v) * (1 + w) - 1) ∈ (set_currency env returns A B).data)
    ∧ (∀ q ∈ (set_currency env returns A B).data, ∃ v w,
        (q.1, v) ∈ returns.data
        ∧ lookupTS q.1 (env.asset (A ++ B ++ ".FX")).ror.data = some w
        ∧ q.2 = (1 + v) * (1 + w) - 1) := by
  refine ⟨set_currency_name env returns A B, ?_, ?_, ?_⟩
  · intro k
    rw [set_currency_data]
    constructor
    · intro hk
      rcases List.mem_map.1 hk with ⟨q, hq, hqk⟩
      rcases List.mem_filterMap.1 hq with ⟨p, hp, hpq⟩
      rcases Option.map_eq_some'.1 hpq with ⟨w, hw, hqe⟩
      subst hqe
      subst hqk
      constructor
      · exact List.mem_map.2 ⟨p, hp, rfl⟩
      · exact lookupTS_isSome.1 (by rw [hw]; rfl)
    · rintro ⟨hk1, hk2⟩
      rcases List.mem_map.1 hk1 with ⟨p, hp, hpk⟩
      rcases Option.isSome_iff_exists.1 (lookupTS_isSome.2 hk2) with ⟨w, hw⟩
      refine List.mem_map.2
        ⟨(k, (p.2 + 1) * (w + 1) - 1), List.mem_filterMap.2 ⟨p, hp, ?_⟩, rfl⟩
      rw [hpk, hw]
      rfl
  · intro k v w hkv hw
    rw [set_currency_data]
    refine List.mem_filterMap.2 ⟨(k, v), hkv, ?_⟩
    rw [hw]
    simp only [Option.map_some', Option.some.injEq, Prod.mk.injEq]
    exact ⟨trivial, by ring⟩
  · intro q hq
    rw [set_currency_data] at hq
    rcases List.mem_filterMap.1 hq with ⟨p, hp, hpq⟩
    rcases Option.map_eq_some'.1 hpq with ⟨w, hw, hqe⟩
    subst hqe
    exact ⟨p.2, w, hp, hw, by show (p.2 + 1) * (w + 1) - 1 = (1 + p.2) * (1 + w) - 1; ring⟩

/-- C2 witness: the name is preserved on a concrete conversion with the
hypothesis that the two currencies differ. -/
theorem set_currency_inner_join_spec_witness :
    (set_currency env2 ret2 "EUR" "USD").name = ret2.name :=
  (set_currency_inner_join_spec env2 ret2 "EUR" "USD" (by decide)).1

/-! ### Claim C9 -/

/-- C9: converting a series from A to B and the result back from B to A,
where the reverse cross-rate growth factors are the exact pointwise
inverses of the forward ones, reconstructs the original values and name on
exactly the timestamps shared with the forward cross rate. -/
theorem set_currency_round_trip (env : Env) (returns : Series) (A B : String)
    (fxd : List (Int × Rat))
    (h1 : (env.asset (A ++ B ++ ".FX")).ror.data = fxd)
    (h2 : (env.asset (B ++ A ++ ".FX")).ror.data
        = fxd.map (fun p => (p.1, 1 / (p.2 + 1) - 1)))
    (h3 : ∀ p ∈ fxd, p.2 + 1 ≠ 0) :
    set_currency env (set_currency env returns A B) B A
      = ⟨returns.name, returns.data.filter (fun p => (lookupTS p.1 fxd).isSome)⟩ := by
  have hdata : (set_currency env (set_currency env returns A B) B A).data
      = returns.data.filter (fun p => (lookupTS p.1 fxd).isSome) := by
    rw [set_currency_data, set_currency_data, h1, h2]
    induction returns.data with
    | nil => rfl
    | cons p rest ih =>
      cases h : lookupTS p.1 fxd with
      | none =>
        simp only [List.filterMap_cons, h, Option.map_none', List.filter_cons,
          Option.isSome_none, Bool.false_eq_true, if_false]
        exact ih
      | some w =>
        have hw : w + 1 ≠ 0 := h3 (p.1, w) (lookupTS_mem h)
        have hinv : lookupTS p.1 (fxd.map (fun p => (p.1, 1 / (p.2 + 1) - 1)))
            = some (1 / (w + 1) - 1) := by
          rw [lookupTS_map (fun v => 1 / (v + 1) - 1) p.1 fxd, h]
          rfl
        simp only [List.filterMap_cons, h, Option.map_some', hinv, List.filter_cons,
          Option.isSome_some, if_true]
        rw [ih]
        have hval : ((p.2 + 1) * (w + 1) - 1 + 1) * (1 / (w + 1) - 1 + 1) - 1 = p.2 := by
          field_simp
        rw [hval]
  exact congrArg (fun d => (⟨returns.name, d⟩ : Series)) hdata

/-- C9 witness: a concrete EUR series converted to USD and back through the
exact inverse rate. -/
theorem set_currency_round_trip_witness :
    set_currency env9 (set_currency env9 ret2 "EUR" "USD") "USD" "EUR"
      = ⟨ret2.name, ret2.data.filter (fun p => (lookupTS p.1 fx9).isSome)⟩ :=
  set_currency_round_trip env9 ret2 "EUR" "USD" fx9 rfl rfl (by
    intro p hp
    simp only [fx9, List.mem_cons, List.not_mem_nil, or_false] at hp
    rcases hp with rfl | rfl <;> norm_num)

/-! ### Claim C1 -/

/-- C1: after list assembly and inflation integration, and before the
user-supplied overrides, the global first date equals the maximum and the
global last date the minimum over the recorded bound dicts, and those dicts
record every asset bound, the base currency bounds and, when inflation is
enabled, the inflation bounds (assuming the recorded keys do not collide). -/
theorem preOverride_first_last_date_extremal
    (env : Env) (ccy : String) (ls : List AssetRef) (b : Bool)
    (hnd : (ls.map (fun x => (resolveAsset env x).symbol)).Nodup)
    (hccy : (env.asset (ccy ++ ".FX")).name ∉ ls.map (fun x => (resolveAsset env x).symbol))
    (hikey : b = true → (ccy ++ ".INFL") ∉ ls.map (fun x => (resolveAsset env x).symbol))
    (hikc : b = true → (ccy ++ ".INFL") ≠ (env.asset (ccy ++ ".FX")).name) :
    (∀ x ∈ ls,
        ((resolveAsset env x).symbol, (resolveAsset env x).first_date)
            ∈ (preOverrideState env ccy ls b).assets_first_dates
          ∧ ((resolveAsset env x).symbol, (resolveAsset env x).last_date)
            ∈ (preOverrideState env ccy ls b).assets_last_dates)
    ∧ ((env.asset (ccy ++ ".FX")).name, (env.asset (ccy ++ ".FX")).first_date)
        ∈ (preOverrideState env ccy ls b).assets_first_dates
    ∧ ((env.asset (ccy ++ ".FX")).name, (env.asset (ccy ++ ".FX")).last_date)
        ∈ (preOverrideState env ccy ls b).assets_last_dates
    ∧ (b = true →
        (ccy ++ ".INFL") ∈ (preOverrideState env ccy ls b).assets_first_dates.map Prod.fst
          ∧ (ccy ++ ".INFL") ∈ (preOverrideState env ccy ls b).assets_last_dates.map Prod.fst)
    ∧ isMaxOfVals (preOverrideState env ccy ls b).first_date
        (preOverrideState env ccy ls b).assets_first_dates
    ∧ isMinOfVals (preOverrideState env ccy ls b).last_date
        (preOverrideState env ccy ls b).assets_last_dates := by
  cases b with
  | false =>
    have hps : preOverrideState env ccy ls false
        = initStateOf (make_list env (env.asset (ccy ++ ".FX")) ls) := rfl
    rw [hps]
    refine ⟨?_, ?_, ?_, ?_, ?_, ?_⟩
    · intro x hx
      exact ⟨make_list_mem_first env _ ls hnd hccy hx,
        make_list_mem_last env _ ls hnd hccy hx⟩
    · exact make_list_mem_ccy_first env _ ls
    · exact make_list_mem_ccy_last env _ ls
    · intro hb
      exact Bool.noConfusion hb
    · exact make_list_first_date_isMax env _ ls
    · exact make_list_last_date_isMin env _ ls
  | true =>
    have hps : preOverrideState env ccy ls true
        = applyInflation env ccy
            (initStateOf (make_list env (env.asset (ccy ++ ".FX")) ls)) true := rfl
    have hk1 : ∀ q ∈ (make_list env (env.asset (ccy ++ ".FX")) ls).assets_first_dates,
        q.1 ≠ ccy ++ ".INFL" := by
      intro q hq he
      rcases make_list_first_keys env _ ls hq with h | h
      · exact hikey rfl (he ▸ h)
      · exact hikc rfl (h.symm.trans he).symm
    have hk2 : ∀ q ∈ (make_list env (env.asset (ccy ++ ".FX")) ls).assets_last_dates,
        q.1 ≠ ccy ++ ".INFL" := by
      intro q hq he
      rcases make_list_last_keys env _ ls hq with h | h
      · exact hikey rfl (he ▸ h)
      · exact hikc rfl (h.symm.trans he).symm
    rw [hps]
    refine ⟨?_, ?_, ?_, ?_, ?_, ?_⟩
    · intro x hx
      constructor
      · rw [applyInflation_first_dates]
        refine updateA_mem_of_ne _ _ (make_list_mem_first env _ ls hnd hccy hx) ?_
        exact fun he => hikey rfl (he ▸ List.mem_map.2 ⟨x, hx, rfl⟩)
      · rw [applyInflation_last_dates]
        refine updateA_mem_of_ne _ _ (make_list_mem_last env _ ls hnd hccy hx) ?_
        exact fun he => hikey rfl (he ▸ List.mem_map.2 ⟨x, hx, rfl⟩)
    · rw [applyInflation_first_dates]
      refine updateA_mem_of_ne _ _ (make_list_mem_ccy_first env _ ls) ?_
      exact fun he => hikc rfl he.symm
    · rw [applyInflation_last_dates]
      refine updateA_mem_of_ne _ _ (make_list_mem_ccy_last env _ ls) ?_
      exact fun he => hikc rfl he.symm
    · intro _
      constructor
      · rw [applyInflation_first_dates]
        exact List.mem_map.2 ⟨_, updateA_mem_self _ _ _, rfl⟩
      · rw [applyInflation_last_dates]
        exact List.mem_map.2 ⟨_, updateA_mem_self _ _ _, rfl⟩
    · rw [applyInflation_first_dates, applyInflation_first_date]
      exact isMax_updateA_fresh (make_list_first_date_isMax env _ ls) hk1
    · rw [applyInflation_last_dates, applyInflation_last_date]
      exact isMin_updateA_fresh (make_list_last_date_isMin env _ ls) hk2

/-- C1 witness: the sample one-asset environment with inflation enabled. -/
theorem preOverride_first_last_date_extremal_witness :
    isMaxOfVals (preOverrideState env1 "USD" [.symbol "A.US"] true).first_date
        (preOverrideState env1 "USD" [.symbol "A.US"] true).assets_first_dates
    ∧ isMinOfVals (preOverrideState env1 "USD" [.symbol "A.US"] true).last_date
        (preOverrideState env1 "USD" [.symbol "A.US"] true).assets_last_dates :=
  (preOverride_first_last_date_extremal env1 "USD" [.symbol "A.US"] true
    (by decide) (by decide) (fun _ => by decide) (fun _ => by decide)).2.2.2.2

/-! ### Claim C5 -/

/-- C5 (code observation): with a first-date override beyond the available
history, construction returns normally, producing an inverted range with
first_date greater than last_date and an empty sliced table; no error of
any kind is raised. -/
theorem init_accepts_inverted_range_silently :
    listMakerInit env5 (.pylist [.symbol "B.US"]) (some 100) none "USD" false
      = .ok (listMakerCore env5 [.symbol "B.US"] (some 100) none "USD" false)
    ∧ (listMakerCore env5 [.symbol "B.US"] (some 100) none "USD" false).last_date
        < (listMakerCore env5 [.symbol "B.US"] (some 100) none "USD" false).first_date
    ∧ (listMakerCore env5 [.symbol "B.US"] (some 100) none "USD" false).assets_ror.rows = [] := by
  refine ⟨rfl, by decide, by decide⟩

/-! ### Claim C6 -/

/-- C6 (amended): period validation accepts exactly the positive integers
not exceeding pl.years, and rejection of a positive period beyond that
bound carries the offending value together with period_length, the
fractional calendar length, rather than the whole-years bound. -/
theorem validate_period_accepts_iff_and_error_shape (st : FinalState) (period : Int) :
    (validate_period st period = .ok () ↔ 0 < period ∧ period ≤ (st.pl_years : Int))
    ∧ (0 < period → (st.pl_years : Int) < period →
        validate_period st period = .error (.beyondRange period st.period_length)) := by
  unfold validate_period validate_integer_min0_exclusive
  by_cases h0 : period ≤ 0
  · simp only [if_pos h0]
    constructor
    · constructor
      · intro h
        exact absurd h (by simp)
      · rintro ⟨h1, _⟩
        exact absurd h1 (not_lt.2 h0)
    · intro h1 _
      exact absurd h1 (not_lt.2 h0)
  · simp only [if_neg h0]
    by_cases h2 : (st.pl_years : Int) < period
    · simp only [if_pos h2]
      constructor
      · constructor
        · intro h
          exact absurd h (by simp)
        · rintro ⟨_, h3⟩
          exact absurd h2 (not_lt.2 h3)
      · intro _ _
        trivial
    · simp only [if_neg h2]
      constructor
      · constructor
        · intro _
          exact ⟨by omega, not_lt.1 h2⟩
        · intro _
          trivial
      · intro _ h3
        exact absurd h3 h2

/-- C6 (counterexample): against 31 months (2 whole years) of history the
rejection of period 10 carries period_length 2.5, not the whole-years
bound 2. -/
theorem validate_period_message_names_period_length_not_years :
    validate_period st6 10 = .error (.beyondRange 10 (((25 : Int) : Rat) / 10))
    ∧ st6.pl_years = 2
    ∧ st6.assets_ror.rows.length = 31
    ∧ (((25 : Int) : Rat) / 10) ≠ ((2 : Nat) : Rat) := by
  refine ⟨rfl, rfl, rfl, by norm_num⟩

/-- C6 witness: acceptance at period 1 and the rejection shape at period 10
over the 31-month object. -/
theorem validate_period_accepts_iff_and_error_shape_witness :
    validate_period st6 1 = .ok ()
    ∧ validate_period st6 10 = .error (.beyondRange 10 st6.period_length) :=
  ⟨(validate_period_accepts_iff_and_error_shape st6 1).1.mpr ⟨by decide, by decide⟩,
   (validate_period_accepts_iff_and_error_shape st6 10).2 (by decide) (by decide)⟩
